import Mathlib

/-!
# Verification of `alembic/util/langhelpers.py`: `Dispatcher` and `to_tuple`

Shallow embedding of the type-hierarchy dispatcher (`Dispatcher` class,
`src/alembic/util/langhelpers.py` lines 193-248) and of `to_tuple`
(lines 178-186).

Modelling decisions:

* Python types are modelled by an identity (`Nat`) together with their
  linearized ancestor chain `__mro__` (a list of type identities).  The
  dispatcher only reads `__mro__`; it never computes it, so the chain is
  data of the model.
* Handlers are opaque and identified by `Nat`.  Invoking a handler either
  returns normally or raises; this behaviour is an environment
  `raises : Handler → Bool` supplied when an aggregate is invoked.
* Python lists are mutable objects: `dispatch_for` appends to the list
  stored in a registry slot, and `branch` copies those lists.  To make
  this aliasing observable we model a heap of lists (`Heap`); a registry
  slot in `uselist` mode holds a reference (index) into the heap.
* `self._registry` is a `dict`; we model it as an association list with
  first-match lookup and insertion at the end, which matches `dict`
  behaviour here because no operation of the class ever overwrites an
  existing key (the `uselist` path appends to the stored list without
  touching the mapping, and the non-`uselist` path asserts absence).
-/

set_option autoImplicit false

namespace Langhelpers

/-- A qualifier, e.g. `"default"`. -/
abbrev Qualifier := String

/-- A handler (a Python function), identified opaquely. -/
abbrev Handler := Nat

/-- A target identity used as the primary registry key: either a string
key or a type (identified by its id). -/
inductive TargetId where
  | str (s : String)
  | typ (id : Nat)
deriving DecidableEq

/-- A registry key `(target-identity, qualifier)`. -/
abbrev Key := TargetId × Qualifier

/-- A Python type: its identity together with its `__mro__`, the
linearized ancestor chain of type identities, most-derived first. -/
structure PyType where
  id : Nat
  mro : List Nat
deriving DecidableEq

/-- The identity of the universal base type `object`, the last entry of
every well-formed `__mro__`. -/
def objectId : Nat := 0

/-- A well-formed `__mro__` starts with the type itself and ends at the
universal base type `object`. -/
def PyType.mroWF (t : PyType) : Prop :=
  t.mro.head? = some t.id ∧ t.mro.getLast? = some objectId

instance (t : PyType) : Decidable t.mroWF := by
  unfold PyType.mroWF; infer_instance

/-- An object passed to `dispatch`: a string, a type, or an instance of
a type (`isinstance(obj, string_types)` / `isinstance(obj, type)` /
anything else). -/
inductive Obj where
  | str (s : String)
  | typ (t : PyType)
  | inst (t : PyType)
deriving DecidableEq

/-- A heap of Python list objects; a list reference is an index into
`data`.  Allocation appends. -/
structure Heap where
  data : List (List Handler)
deriving DecidableEq

/-- Allocate a fresh list object, returning the new heap and the
reference. -/
def Heap.alloc (h : Heap) (l : List Handler) : Heap × Nat :=
  (⟨h.data ++ [l]⟩, h.data.length)

/-- Read the list object behind a reference. -/
def Heap.read (h : Heap) (r : Nat) : List Handler :=
  h.data.getD r []

/-- Replace the list object behind a reference (models in-place
mutation such as `list.append`). -/
def Heap.write (h : Heap) (r : Nat) (l : List Handler) : Heap :=
  ⟨h.data.set r l⟩

/-- A registry slot: a bare handler (`uselist = False` registrations) or
a reference to a heap list (`uselist = True` registrations). -/
inductive Slot where
  | fn (f : Handler)
  | ref (r : Nat)
deriving DecidableEq

/-- First-match lookup in the association-list registry, modelling
`self._registry[key]` / `key in self._registry`. -/
def lookupReg (reg : List (Key × Slot)) (k : Key) : Option Slot :=
  match reg with
  | [] => none
  | (k', s) :: rest => if k' = k then some s else lookupReg rest k

/-- The `Dispatcher` state: the `uselist` flag and `self._registry`. -/
structure Dispatcher where
  uselist : Bool
  registry : List (Key × Slot)
deriving DecidableEq

/-- `Dispatcher.__init__`: empty registry.  `uselist` defaults to
`False` in Python; callers of the model pass it explicitly. -/
def Dispatcher.init (uselist : Bool) : Dispatcher :=
  ⟨uselist, []⟩

/-- The errors the class can raise: the failed
`assert (target, qualifier) not in self._registry` in `dispatch_for`
(the spec's `DuplicateRegistration`), the `ValueError` in `dispatch`
naming the unresolved object (the spec's `NoDispatchTarget`), and the
`AttributeError` Python raises when `dispatch_for` in `uselist` mode
finds a bare function in a slot and calls `.append` on it (unreachable
through the public operations). -/
inductive DispatchError where
  | duplicateRegistration
  | noDispatchTarget (obj : Obj)
  | attributeError
deriving DecidableEq

/-- `Dispatcher.dispatch_for(target, qualifier)` applied to a handler
`fn` (the body of the inner `decorate`).  Returns the updated dispatcher
and heap, and the decorator's return value (the original `fn`); a failed
assertion leaves both unchanged and raises. -/
def Dispatcher.dispatch_for (d : Dispatcher) (heap : Heap) (target : TargetId)
    (qualifier : Qualifier) (fn : Handler) :
    Dispatcher × Heap × Except DispatchError Handler :=
  if d.uselist then
    -- self._registry.setdefault((target, qualifier), []).append(fn)
    match lookupReg d.registry (target, qualifier) with
    | some (Slot.ref r) =>
        (d, heap.write r (heap.read r ++ [fn]), Except.ok fn)
    | some (Slot.fn _) =>
        -- `setdefault` returns the stored function; `.append` raises.
        (d, heap, Except.error DispatchError.attributeError)
    | none =>
        let (heap1, r) := heap.alloc []
        ({ d with registry := d.registry ++ [((target, qualifier), Slot.ref r)] },
         heap1.write r (heap1.read r ++ [fn]),
         Except.ok fn)
  else
    -- assert (target, qualifier) not in self._registry
    if (lookupReg d.registry (target, qualifier)).isSome then
      (d, heap, Except.error DispatchError.duplicateRegistration)
    else
      ({ d with registry := d.registry ++ [((target, qualifier), Slot.fn fn)] },
       heap, Except.ok fn)

/-- The probe sequence of `dispatch`:
`[obj]` for a string, `obj.__mro__` for a type, `type(obj).__mro__`
otherwise. -/
def targetsOf (obj : Obj) : List TargetId :=
  match obj with
  | Obj.str s => [TargetId.str s]
  | Obj.typ t => t.mro.map TargetId.typ
  | Obj.inst t => t.mro.map TargetId.typ

/-- One iteration of the `for spcls in targets` loop:
`if qualifier != "default" and (spcls, qualifier) in self._registry:
return ...; elif (spcls, "default") in self._registry: return ...`,
`none` meaning the loop continues. -/
def probeLevel (reg : List (Key × Slot)) (qualifier : Qualifier)
    (spcls : TargetId) : Option Slot :=
  if qualifier != "default" && (lookupReg reg (spcls, qualifier)).isSome then
    lookupReg reg (spcls, qualifier)
  else if (lookupReg reg (spcls, "default")).isSome then
    lookupReg reg (spcls, "default")
  else
    none

/-- The full `for spcls in targets` loop, returning the slot of the
first level that matches. -/
def probe (reg : List (Key × Slot)) (qualifier : Qualifier) :
    List TargetId → Option Slot
  | [] => none
  | spcls :: rest =>
    match probeLevel reg qualifier spcls with
    | some s => some s
    | none => probe reg qualifier rest

/-- A value returned by `dispatch`: a bare handler, a raw Python list of
handlers (what `_fn_or_list` returns for a list-valued slot when
`uselist` is `False`, as happens on a branch of a multi dispatcher), or
the aggregate closure `go` (capturing the handlers of the resolved
slot). -/
inductive PyRes where
  | fn (f : Handler)
  | list (fns : List Handler)
  | go (fns : List Handler)
deriving DecidableEq

/-- `Dispatcher._fn_or_list`: wrap the stored slot value.  In `uselist`
mode the result is the closure `go` over the stored list (for a bare
function slot, unreachable through the public operations, invoking the
closure would raise `TypeError`; we record the single function).
Otherwise the stored value is returned as-is. -/
def Dispatcher.fnOrList (d : Dispatcher) (heap : Heap) (s : Slot) : PyRes :=
  if d.uselist then
    PyRes.go (match s with
      | Slot.fn f => [f]
      | Slot.ref r => heap.read r)
  else
    match s with
    | Slot.fn f => PyRes.fn f
    | Slot.ref r => PyRes.list (heap.read r)

/-- `Dispatcher.dispatch(obj, qualifier)`.  Walks the probe sequence and
wraps the first matching slot with `_fn_or_list`; raises `ValueError`
(`NoDispatchTarget`) naming `obj` when nothing matches.  It only reads
the state. -/
def Dispatcher.dispatch (d : Dispatcher) (heap : Heap) (obj : Obj)
    (qualifier : Qualifier) : Except DispatchError PyRes :=
  match probe d.registry qualifier (targetsOf obj) with
  | some s => Except.ok (d.fnOrList heap s)
  | none => Except.error (DispatchError.noDispatchTarget obj)

/-- State-threaded form of `dispatch`, making explicit that the method
body contains no assignment to `self._registry` or to any stored list:
the state it yields back is the state it was given. -/
def Dispatcher.dispatchSt (d : Dispatcher) (heap : Heap) (obj : Obj)
    (qualifier : Qualifier) :
    Dispatcher × Heap × Except DispatchError PyRes :=
  (d, heap, d.dispatch heap obj qualifier)

/-- The copy `(k, [fn for fn in self._registry[k]]) for k in self._registry`
performed by `branch` in `uselist` mode: every list slot is copied into
a freshly allocated list.  (A bare-function slot, unreachable through
the public operations, would raise `TypeError` under iteration in
Python; we carry it over unchanged.) -/
def branchCopy (heap : Heap) : List (Key × Slot) → Heap × List (Key × Slot)
  | [] => (heap, [])
  | (k, Slot.ref r) :: rest =>
      let (h1, r') := heap.alloc (heap.read r)
      let (h2, tail) := branchCopy h1 rest
      (h2, (k, Slot.ref r') :: tail)
  | (k, Slot.fn f) :: rest =>
      let (h2, tail) := branchCopy heap rest
      (h2, (k, Slot.fn f) :: tail)

/-- `Dispatcher.branch`: `d = Dispatcher()` — note: constructed with the
default `uselist=False` whatever `self.uselist` is — then copy the
registry, deep-copying the per-slot lists when `self.uselist`. -/
def Dispatcher.branch (d : Dispatcher) (heap : Heap) : Dispatcher × Heap :=
  if d.uselist then
    let (h', reg') := branchCopy heap d.registry
    (⟨false, reg'⟩, h')
  else
    (⟨false, d.registry⟩, heap)

/-- Invoking the aggregate closure `go`:
`for fn in fn_or_list: fn(*arg, **kw)`.  Each handler either returns
normally or raises, as prescribed by `raises`; the result is the
sequence of handlers actually invoked, in order, together with the
raising handler if the loop was aborted by an exception (fail-fast). -/
def runGo (raises : Handler → Bool) : List Handler → List Handler × Option Handler
  | [] => ([], none)
  | f :: rest =>
    if raises f then ([f], some f)
    else
      let (tr, e) := runGo raises rest
      (f :: tr, e)

/-- Registering a sequence of handlers one after another under the same
key (`@d.dispatch_for(...)` applied N times), stopping at the first
error. -/
def registerAll (d : Dispatcher) (heap : Heap) (target : TargetId)
    (qualifier : Qualifier) :
    List Handler → Dispatcher × Heap × Except DispatchError Unit
  | [] => (d, heap, Except.ok ())
  | fn :: rest =>
    match d.dispatch_for heap target qualifier fn with
    | (d', heap', Except.ok _) => registerAll d' heap' target qualifier rest
    | (d', heap', Except.error e) => (d', heap', Except.error e)

/-- Validity of a registry with respect to a heap: every list reference
stored in a slot points below the allocation frontier.  Every state
reachable through the public operations satisfies this. -/
def regValid (heap : Heap) (reg : List (Key × Slot)) : Bool :=
  reg.all fun p =>
    match p.2 with
    | Slot.fn _ => true
    | Slot.ref r => r < heap.data.length

/-- The handler sequence held by a slot: the observable content used to
compare registries. -/
def slotFns (heap : Heap) : Slot → List Handler
  | Slot.fn f => [f]
  | Slot.ref r => heap.read r

end Langhelpers

namespace Langhelpers

/-!
## `to_tuple` (lines 178-186)

A Python value, as far as `to_tuple` observes it: `None`, a string, a
tuple, a list (a representative non-string iterable), or any other,
non-iterable object (opaque, identified by `Nat`).
-/

inductive PyVal where
  | none
  | str (s : String)
  | tup (xs : List PyVal)
  | listv (xs : List PyVal)
  | other (n : Nat)

/-- `isinstance(x, string_types)`. -/
def PyVal.isString : PyVal → Bool
  | PyVal.str _ => true
  | _ => false

/-- `isinstance(x, Iterable)`: strings, tuples and lists are iterable. -/
def PyVal.isIterable : PyVal → Bool
  | PyVal.str _ => true
  | PyVal.tup _ => true
  | PyVal.listv _ => true
  | _ => false

/-- Iteration order of an iterable: a string yields its characters as
one-character strings; tuples and lists yield their elements. -/
def PyVal.elements : PyVal → List PyVal
  | PyVal.str s => s.toList.map (fun c => PyVal.str (String.singleton c))
  | PyVal.tup xs => xs
  | PyVal.listv xs => xs
  | _ => []

/-- `to_tuple(x, default=None)`: the `if/elif` chain in source order
(the string test precedes the iterability test, so a string becomes the
one-element tuple `(x,)` rather than its characters). -/
def to_tuple (x : PyVal) (default : PyVal) : PyVal :=
  if x matches PyVal.none then default
  else if x.isString then PyVal.tup [x]
  else if x.isIterable then PyVal.tup x.elements
  else PyVal.tup [x]

end Langhelpers

namespace Langhelpers

/-! ## Helper lemmas: lists, heap, registry lookup -/

section ListHelpers

variable {α : Type _}

theorem list_getD_append_lt (l l2 : List α) (r : Nat) (d : α) (h : r < l.length) :
    (l ++ l2).getD r d = l.getD r d := by
  induction l generalizing r with
  | nil => simp at h
  | cons a t ih =>
    cases r with
    | zero => rfl
    | succ r => exact ih r (by simpa using Nat.lt_of_succ_lt_succ h)

theorem list_getD_append_len (l : List α) (a : α) (l2 : List α) (d : α) :
    ((l ++ a :: l2).getD l.length d) = a := by
  induction l with
  | nil => rfl
  | cons b t ih => simpa using ih

theorem list_set_append_len (l : List α) (a b : α) (l2 : List α) :
    ((l ++ a :: l2).set l.length b) = l ++ b :: l2 := by
  induction l with
  | nil => rfl
  | cons c t ih => simp [ih]

theorem list_getD_set_self (l : List α) (r : Nat) (x d : α) (h : r < l.length) :
    (l.set r x).getD r d = x := by
  induction l generalizing r with
  | nil => simp at h
  | cons a t ih =>
    cases r with
    | zero => rfl
    | succ r => exact ih r (by simpa using Nat.lt_of_succ_lt_succ h)

theorem list_getD_set_ne (l : List α) (r r' : Nat) (x d : α) (h : r ≠ r') :
    (l.set r x).getD r' d = l.getD r' d := by
  induction l generalizing r r' with
  | nil => simp [List.getD]
  | cons a t ih =>
    cases r with
    | zero =>
      cases r' with
      | zero => exact absurd rfl h
      | succ r' => rfl
    | succ r =>
      cases r' with
      | zero => rfl
      | succ r' => exact ih r r' (fun hc => h (by simp [hc]))

theorem list_set_getD_self (l : List α) (r : Nat) (d : α) (h : r < l.length) :
    l.set r (l.getD r d) = l := by
  induction l generalizing r with
  | nil => rfl
  | cons a t ih =>
    cases r with
    | zero => rfl
    | succ r => simpa using ih r (by simpa using Nat.lt_of_succ_lt_succ h)

theorem list_set_set (l : List α) (r : Nat) (a b : α) :
    (l.set r a).set r b = l.set r b := by
  induction l generalizing r with
  | nil => rfl
  | cons c t ih =>
    cases r with
    | zero => rfl
    | succ r => simp [ih r]

theorem list_length_set (l : List α) (r : Nat) (a : α) :
    (l.set r a).length = l.length := by
  simp

end ListHelpers

section HeapHelpers

theorem Heap.read_alloc_lt (h : Heap) (l : List Handler) (r : Nat)
    (hr : r < h.data.length) : ((h.alloc l).1).read r = h.read r := by
  simp only [Heap.alloc, Heap.read]
  exact list_getD_append_lt h.data [l] r [] hr

theorem Heap.read_alloc_self (h : Heap) (l : List Handler) :
    ((h.alloc l).1).read h.data.length = l := by
  simp only [Heap.alloc, Heap.read]
  exact list_getD_append_len h.data l [] []

theorem Heap.read_write_self (h : Heap) (r : Nat) (l : List Handler)
    (hr : r < h.data.length) : (h.write r l).read r = l := by
  simp only [Heap.write, Heap.read]
  exact list_getD_set_self h.data r l [] hr

theorem Heap.read_write_ne (h : Heap) (r r' : Nat) (l : List Handler)
    (hne : r ≠ r') : (h.write r l).read r' = h.read r' := by
  simp only [Heap.write, Heap.read]
  exact list_getD_set_ne h.data r r' l [] hne

theorem Heap.length_write (h : Heap) (r : Nat) (l : List Handler) :
    (h.write r l).data.length = h.data.length := by
  simp [Heap.write]

end HeapHelpers

section LookupHelpers

theorem lookupReg_mem (reg : List (Key × Slot)) (k : Key) (s : Slot)
    (h : lookupReg reg k = some s) : (k, s) ∈ reg := by
  induction reg with
  | nil => simp [lookupReg] at h
  | cons p rest ih =>
    obtain ⟨k', s'⟩ := p
    by_cases hk : k' = k
    · subst hk
      simp only [lookupReg, if_true, eq_self_iff_true, Option.some.injEq] at h
      subst h
      exact List.mem_cons_self _ _
    · simp only [lookupReg, if_neg hk] at h
      exact List.mem_cons_of_mem _ (ih h)

theorem lookupReg_append_some (reg l : List (Key × Slot)) (k : Key) (s : Slot)
    (h : lookupReg reg k = some s) : lookupReg (reg ++ l) k = some s := by
  induction reg with
  | nil => simp [lookupReg] at h
  | cons p rest ih =>
    obtain ⟨k', s'⟩ := p
    by_cases hk : k' = k
    · subst hk
      simp only [lookupReg, if_true, eq_self_iff_true, Option.some.injEq] at h
      simp [lookupReg, h]
    · simp only [lookupReg, if_neg hk] at h ⊢
      exact ih h

theorem lookupReg_append_none (reg l : List (Key × Slot)) (k : Key)
    (h : lookupReg reg k = none) : lookupReg (reg ++ l) k = lookupReg l k := by
  induction reg with
  | nil => rfl
  | cons p rest ih =>
    obtain ⟨k', s'⟩ := p
    by_cases hk : k' = k
    · subst hk; simp [lookupReg] at h
    · simp only [lookupReg, if_neg hk] at h ⊢
      exact ih h

theorem lookupReg_append_single_self (reg : List (Key × Slot)) (k : Key) (s : Slot)
    (h : lookupReg reg k = none) : lookupReg (reg ++ [(k, s)]) k = some s := by
  rw [lookupReg_append_none reg _ k h]
  simp [lookupReg]

theorem regValid_spec (heap : Heap) (reg : List (Key × Slot))
    (hv : regValid heap reg = true) (k : Key) (r : Nat)
    (h : lookupReg reg k = some (Slot.ref r)) : r < heap.data.length := by
  have hmem := lookupReg_mem reg k _ h
  have := (List.all_eq_true.mp hv) _ hmem
  simpa using this

end LookupHelpers

section ProbeHelpers

theorem probeLevel_of_none (reg : List (Key × Slot)) (q : Qualifier) (t : TargetId)
    (h1 : lookupReg reg (t, q) = none)
    (h2 : lookupReg reg (t, "default") = none) :
    probeLevel reg q t = none := by
  simp [probeLevel, h1, h2]

theorem probe_append_of_none (reg : List (Key × Slot)) (q : Qualifier)
    (pre ts : List TargetId) (h : ∀ t ∈ pre, probeLevel reg q t = none) :
    probe reg q (pre ++ ts) = probe reg q ts := by
  induction pre with
  | nil => rfl
  | cons a rest ih =>
    have ha : probeLevel reg q a = none := h a (List.mem_cons_self _ _)
    have := ih (fun t ht => h t (List.mem_cons_of_mem _ ht))
    simp only [List.cons_append, probe, ha]
    exact this

theorem probe_none_of_all_none (reg : List (Key × Slot)) (q : Qualifier)
    (ts : List TargetId) (h : ∀ t ∈ ts, probeLevel reg q t = none) :
    probe reg q ts = none := by
  induction ts with
  | nil => rfl
  | cons a rest ih =>
    have ha : probeLevel reg q a = none := h a (List.mem_cons_self _ _)
    simp only [probe, ha]
    exact ih (fun t ht => h t (List.mem_cons_of_mem _ ht))

theorem probeLevel_lookup (reg : List (Key × Slot)) (q : Qualifier) (t : TargetId)
    (s : Slot) (h : probeLevel reg q t = some s) :
    lookupReg reg (t, q) = some s ∨ lookupReg reg (t, "default") = some s := by
  unfold probeLevel at h
  split at h
  · exact Or.inl h
  · split at h
    · exact Or.inr h
    · exact absurd h (by simp)

theorem probe_lookup (reg : List (Key × Slot)) (q : Qualifier)
    (ts : List TargetId) (s : Slot) (h : probe reg q ts = some s) :
    ∃ k, lookupReg reg k = some s := by
  induction ts with
  | nil => simp [probe] at h
  | cons a rest ih =>
    unfold probe at h
    split at h
    · next s' hs' =>
      cases h
      rcases probeLevel_lookup reg q a s hs' with hl | hl
      · exact ⟨(a, q), hl⟩
      · exact ⟨(a, "default"), hl⟩
    · exact ih h

/-- `dispatch` reads the heap only through the list references of its
own registry. -/
theorem dispatch_heap_congr (d : Dispatcher) (h1 h2 : Heap) (obj : Obj)
    (q : Qualifier)
    (h : ∀ k r, lookupReg d.registry k = some (Slot.ref r) →
        h1.read r = h2.read r) :
    d.dispatch h1 obj q = d.dispatch h2 obj q := by
  unfold Dispatcher.dispatch
  cases hp : probe d.registry q (targetsOf obj) with
  | none => rfl
  | some s =>
    obtain ⟨k, hk⟩ := probe_lookup _ _ _ _ hp
    cases s with
    | fn f => rfl
    | ref r =>
      have hr := h k r hk
      unfold Dispatcher.fnOrList
      cases d.uselist <;> simp [hr]

end ProbeHelpers

section RunGoHelpers

theorem runGo_no_raise (raises : Handler → Bool) (l : List Handler)
    (h : ∀ g ∈ l, raises g = false) : runGo raises l = (l, none) := by
  induction l with
  | nil => rfl
  | cons f rest ih =>
    have hf : raises f = false := h f (List.mem_cons_self _ _)
    simp only [runGo, hf, Bool.false_eq_true, if_false]
    rw [ih (fun g hg => h g (List.mem_cons_of_mem _ hg))]

theorem runGo_first_raise (raises : Handler → Bool) (pre : List Handler)
    (bad : Handler) (post : List Handler)
    (hpre : ∀ g ∈ pre, raises g = false) (hbad : raises bad = true) :
    runGo raises (pre ++ bad :: post) = (pre ++ [bad], some bad) := by
  induction pre with
  | nil => simp [runGo, hbad]
  | cons f rest ih =>
    have hf : raises f = false := hpre f (List.mem_cons_self _ _)
    simp only [List.cons_append, runGo, hf, Bool.false_eq_true, if_false]
    simp [ih (fun g hg => hpre g (List.mem_cons_of_mem _ hg))]

end RunGoHelpers

section RegisterAllHelpers

theorem registerAll_ref (d : Dispatcher) (heap : Heap) (t : TargetId)
    (q : Qualifier) (r : Nat) (fns : List Handler)
    (hm : d.uselist = true)
    (hl : lookupReg d.registry (t, q) = some (Slot.ref r))
    (hr : r < heap.data.length) :
    registerAll d heap t q fns
      = (d, ⟨heap.data.set r (heap.read r ++ fns)⟩, Except.ok ()) := by
  induction fns generalizing heap with
  | nil =>
    have h2 : heap.data.set r (heap.read r) = heap.data :=
      list_set_getD_self heap.data r [] hr
    simp only [registerAll, List.append_nil]
    rw [h2]
  | cons f rest ih =>
    have step : d.dispatch_for heap t q f
        = (d, heap.write r (heap.read r ++ [f]), Except.ok f) := by
      simp [Dispatcher.dispatch_for, hm, hl]
    simp only [registerAll, step]
    have hr2 : r < (heap.write r (heap.read r ++ [f])).data.length := by
      rw [Heap.length_write]; exact hr
    rw [ih _ hr2]
    have hread : (heap.write r (heap.read r ++ [f])).read r = heap.read r ++ [f] :=
      Heap.read_write_self heap r _ hr
    simp only [Heap.write] at hread ⊢
    rw [hread, list_set_set]
    simp

theorem registerAll_fresh (d : Dispatcher) (heap : Heap) (t : TargetId)
    (q : Qualifier) (f : Handler) (fns : List Handler)
    (hm : d.uselist = true)
    (hl : lookupReg d.registry (t, q) = none) :
    registerAll d heap t q (f :: fns)
      = ({ d with registry :=
             d.registry ++ [((t, q), Slot.ref heap.data.length)] },
         ⟨heap.data ++ [f :: fns]⟩, Except.ok ()) := by
  have step : d.dispatch_for heap t q f
      = ({ d with registry :=
             d.registry ++ [((t, q), Slot.ref heap.data.length)] },
         ⟨heap.data ++ [[f]]⟩, Except.ok f) := by
    simp only [Dispatcher.dispatch_for, hm, if_true, hl]
    have h1 : ((Heap.mk (heap.data ++ [[]])).read heap.data.length) = [] := by
      simpa [Heap.alloc] using Heap.read_alloc_self heap []
    simp only [Heap.alloc, h1, List.nil_append, Heap.write]
    rw [list_set_append_len heap.data [] [f] []]
  simp only [registerAll, step]
  set d1 : Dispatcher :=
    { d with registry := d.registry ++ [((t, q), Slot.ref heap.data.length)] } with hd1
  have hm1 : d1.uselist = true := by simp [hd1, hm]
  have hl1 : lookupReg d1.registry (t, q) = some (Slot.ref heap.data.length) := by
    simp only [hd1]
    exact lookupReg_append_single_self d.registry (t, q) _ hl
  have hr1 : heap.data.length < (Heap.mk (heap.data ++ [[f]])).data.length := by
    simp
  rw [registerAll_ref d1 _ t q heap.data.length fns hm1 hl1 hr1]
  have hread : (Heap.mk (heap.data ++ [[f]])).read heap.data.length = [f] :=
    list_getD_append_len heap.data [f] [] []
  rw [hread]
  rw [show ([f] ++ fns) = f :: fns from rfl]
  rw [list_set_append_len heap.data [f] (f :: fns) []]

end RegisterAllHelpers

section BranchCopyHelpers

theorem branchCopy_length_le (heap : Heap) (reg : List (Key × Slot)) :
    heap.data.length ≤ (branchCopy heap reg).1.data.length := by
  induction reg generalizing heap with
  | nil => exact Nat.le_refl _
  | cons p rest ih =>
    obtain ⟨k, s⟩ := p
    cases s with
    | fn f =>
      simp only [branchCopy]
      exact ih heap
    | ref r =>
      simp only [branchCopy, Heap.alloc]
      have h1 := ih (Heap.mk (heap.data ++ [heap.read r]))
      have h2 : heap.data.length ≤ (Heap.mk (heap.data ++ [heap.read r])).data.length := by
        simp
      exact Nat.le_trans h2 h1

theorem branchCopy_read_lt (heap : Heap) (reg : List (Key × Slot)) (r : Nat)
    (hr : r < heap.data.length) :
    (branchCopy heap reg).1.read r = heap.read r := by
  induction reg generalizing heap with
  | nil => rfl
  | cons p rest ih =>
    obtain ⟨k, s⟩ := p
    cases s with
    | fn f => simpa [branchCopy] using ih heap hr
    | ref r0 =>
      simp only [branchCopy, Heap.alloc]
      have hr1 : r < (Heap.mk (heap.data ++ [heap.read r0])).data.length := by
        simp
        exact Nat.lt_succ_of_lt hr
      rw [ih (Heap.mk (heap.data ++ [heap.read r0])) hr1]
      simpa [Heap.alloc] using Heap.read_alloc_lt heap (heap.read r0) r hr

theorem regValid_cons (heap : Heap) (p : Key × Slot) (rest : List (Key × Slot))
    (hv : regValid heap (p :: rest) = true) : regValid heap rest = true := by
  simp only [regValid, List.all_cons, Bool.and_eq_true] at hv
  exact hv.2

theorem regValid_mono (h1 h2 : Heap) (reg : List (Key × Slot))
    (hle : h1.data.length ≤ h2.data.length)
    (hv : regValid h1 reg = true) : regValid h2 reg = true := by
  simp only [regValid, List.all_eq_true] at hv ⊢
  intro p hp
  have := hv p hp
  cases hs : p.2 with
  | fn f => simp [hs]
  | ref r =>
    rw [hs] at this
    simp only [decide_eq_true_eq] at this ⊢
    exact Nat.lt_of_lt_of_le this hle

theorem branchCopy_refs (heap : Heap) (reg : List (Key × Slot)) (k : Key) (r' : Nat)
    (h : lookupReg (branchCopy heap reg).2 k = some (Slot.ref r')) :
    heap.data.length ≤ r' ∧ r' < (branchCopy heap reg).1.data.length := by
  induction reg generalizing heap with
  | nil => simp [branchCopy, lookupReg] at h
  | cons p rest ih =>
    obtain ⟨k0, s⟩ := p
    cases s with
    | fn f =>
      simp only [branchCopy] at h ⊢
      by_cases hk : k0 = k
      · subst hk; simp [lookupReg] at h
      · rw [show lookupReg ((k0, Slot.fn f) :: (branchCopy heap rest).2) k
              = lookupReg (branchCopy heap rest).2 k from by simp [lookupReg, hk]] at h
        exact ih heap h
    | ref r0 =>
      simp only [branchCopy, Heap.alloc] at h ⊢
      by_cases hk : k0 = k
      · subst hk
        rw [show lookupReg ((k0, Slot.ref heap.data.length) ::
              (branchCopy (Heap.mk (heap.data ++ [heap.read r0])) rest).2) k0
              = some (Slot.ref heap.data.length) from by simp [lookupReg]] at h
        cases h
        constructor
        · exact Nat.le_refl _
        · have hlt : heap.data.length
              < (Heap.mk (heap.data ++ [heap.read r0])).data.length := by simp
          exact Nat.lt_of_lt_of_le hlt
            (branchCopy_length_le (Heap.mk (heap.data ++ [heap.read r0])) rest)
      · rw [show lookupReg ((k0, Slot.ref heap.data.length) ::
              (branchCopy (Heap.mk (heap.data ++ [heap.read r0])) rest).2) k
              = lookupReg (branchCopy (Heap.mk (heap.data ++ [heap.read r0])) rest).2 k
              from by simp [lookupReg, hk]] at h
        have := ih (Heap.mk (heap.data ++ [heap.read r0])) h
        constructor
        · refine Nat.le_trans ?_ this.1
          simp
        · exact this.2

/-- Correspondence between the registry and its branch copy: absent keys
stay absent, bare-handler slots are carried over, and list slots become
fresh lists with the same contents. -/
theorem branchCopy_lookup (heap : Heap) (reg : List (Key × Slot))
    (hv : regValid heap reg = true) (k : Key) :
    (lookupReg reg k = none → lookupReg (branchCopy heap reg).2 k = none)
  ∧ (∀ f, lookupReg reg k = some (Slot.fn f) →
        lookupReg (branchCopy heap reg).2 k = some (Slot.fn f))
  ∧ (∀ r, lookupReg reg k = some (Slot.ref r) →
        ∃ r', lookupReg (branchCopy heap reg).2 k = some (Slot.ref r')
          ∧ (branchCopy heap reg).1.read r' = heap.read r) := by
  induction reg generalizing heap with
  | nil =>
    exact ⟨fun _ => rfl, fun f h => by simp [lookupReg] at h,
      fun r h => by simp [lookupReg] at h⟩
  | cons p rest ih =>
    obtain ⟨k0, s⟩ := p
    have hvrest : regValid heap rest = true := regValid_cons heap _ rest hv
    cases s with
    | fn f0 =>
      simp only [branchCopy]
      by_cases hk : k0 = k
      · subst hk
        refine ⟨fun h => ?_, fun f h => ?_, fun r h => ?_⟩
        · simp [lookupReg] at h
        · simp only [lookupReg, if_true, eq_self_iff_true, Option.some.injEq] at h
          cases h
          simp [lookupReg]
        · simp [lookupReg] at h
      · have hred : ∀ o : List (Key × Slot),
            lookupReg ((k0, Slot.fn f0) :: o) k = lookupReg o k := by
          intro o; simp [lookupReg, hk]
        rw [hred, hred]
        exact ih heap hvrest
    | ref r0 =>
      have hr0 : r0 < heap.data.length := by
        have := (List.all_eq_true.mp hv) _ (List.mem_cons_self _ _)
        simpa using this
      simp only [branchCopy, Heap.alloc]
      have hlen1 : heap.data.length
          < (Heap.mk (heap.data ++ [heap.read r0])).data.length := by simp
      have hv1 : regValid (Heap.mk (heap.data ++ [heap.read r0])) rest = true :=
        regValid_mono heap _ rest (Nat.le_of_lt hlen1) hvrest
      by_cases hk : k0 = k
      · subst hk
        refine ⟨fun h => ?_, fun f h => ?_, fun r h => ?_⟩
        · simp [lookupReg] at h
        · simp [lookupReg] at h
        · have h' : r0 = r := by simpa [lookupReg] using h
          subst h'
          refine ⟨heap.data.length, by simp [lookupReg], ?_⟩
          rw [branchCopy_read_lt _ rest heap.data.length hlen1]
          exact list_getD_append_len heap.data (heap.read r0) [] []
      · have hred : ∀ (s' : Slot) (o : List (Key × Slot)),
            lookupReg ((k0, s') :: o) k = lookupReg o k := by
          intro s' o; simp [lookupReg, hk]
        rw [hred, hred]
        obtain ⟨ihn, ihf, ihr⟩ := ih (Heap.mk (heap.data ++ [heap.read r0])) hv1
        refine ⟨ihn, ihf, fun r h => ?_⟩
        obtain ⟨r', hl', hread⟩ := ihr r h
        refine ⟨r', hl', ?_⟩
        rw [hread]
        have hrlt : r < heap.data.length := regValid_spec heap rest hvrest k r h
        exact list_getD_append_lt heap.data [heap.read r0] r [] hrlt

/-- Key presence is preserved by the branch copy. -/
theorem branchCopy_isSome (heap : Heap) (reg : List (Key × Slot))
    (hv : regValid heap reg = true) (k : Key) :
    (lookupReg (branchCopy heap reg).2 k).isSome = (lookupReg reg k).isSome := by
  obtain ⟨hn, hf, hr⟩ := branchCopy_lookup heap reg hv k
  cases h : lookupReg reg k with
  | none => simp [hn h]
  | some s =>
    cases s with
    | fn f => simp [hf f h]
    | ref r => obtain ⟨r', hl', _⟩ := hr r h; simp [hl']

/-- One probe level behaves identically on the branch copy, up to the
renaming of list references. -/
theorem branchCopy_probeLevel (heap : Heap) (reg : List (Key × Slot))
    (hv : regValid heap reg = true) (q : Qualifier) (t : TargetId) :
    (probeLevel reg q t = none → probeLevel (branchCopy heap reg).2 q t = none)
  ∧ (∀ f, probeLevel reg q t = some (Slot.fn f) →
        probeLevel (branchCopy heap reg).2 q t = some (Slot.fn f))
  ∧ (∀ r, probeLevel reg q t = some (Slot.ref r) →
        ∃ r', probeLevel (branchCopy heap reg).2 q t = some (Slot.ref r')
          ∧ (branchCopy heap reg).1.read r' = heap.read r) := by
  have hq := branchCopy_isSome heap reg hv (t, q)
  have hd := branchCopy_isSome heap reg hv (t, "default")
  obtain ⟨hnq, hfq, hrq⟩ := branchCopy_lookup heap reg hv (t, q)
  obtain ⟨hnd, hfd, hrd⟩ := branchCopy_lookup heap reg hv (t, "default")
  have e' : probeLevel (branchCopy heap reg).2 q t
      = if (q != "default" && (lookupReg reg (t, q)).isSome) = true
        then lookupReg (branchCopy heap reg).2 (t, q)
        else if (lookupReg reg (t, "default")).isSome = true
          then lookupReg (branchCopy heap reg).2 (t, "default")
          else none := by
    unfold probeLevel
    rw [hq, hd]
  have e : probeLevel reg q t
      = if (q != "default" && (lookupReg reg (t, q)).isSome) = true
        then lookupReg reg (t, q)
        else if (lookupReg reg (t, "default")).isSome = true
          then lookupReg reg (t, "default")
          else none := rfl
  rw [e, e']
  by_cases h1 : (q != "default" && (lookupReg reg (t, q)).isSome) = true
  · rw [if_pos h1, if_pos h1]
    refine ⟨fun h => ?_, fun f h => hfq f h, fun r h => hrq r h⟩
    rw [Bool.and_eq_true] at h1
    rw [h] at h1
    simp at h1
  · rw [if_neg h1, if_neg h1]
    by_cases h2 : (lookupReg reg (t, "default")).isSome = true
    · rw [if_pos h2, if_pos h2]
      refine ⟨fun h => ?_, fun f h => hfd f h, fun r h => hrd r h⟩
      rw [h] at h2
      simp at h2
    · rw [if_neg h2, if_neg h2]
      exact ⟨fun _ => rfl, fun f h => by simp at h, fun r h => by simp at h⟩

/-- The whole probe walk behaves identically on the branch copy, up to
the renaming of list references. -/
theorem branchCopy_probe (heap : Heap) (reg : List (Key × Slot))
    (hv : regValid heap reg = true) (q : Qualifier) (ts : List TargetId) :
    (probe reg q ts = none → probe (branchCopy heap reg).2 q ts = none)
  ∧ (∀ f, probe reg q ts = some (Slot.fn f) →
        probe (branchCopy heap reg).2 q ts = some (Slot.fn f))
  ∧ (∀ r, probe reg q ts = some (Slot.ref r) →
        ∃ r', probe (branchCopy heap reg).2 q ts = some (Slot.ref r')
          ∧ (branchCopy heap reg).1.read r' = heap.read r) := by
  induction ts with
  | nil => exact ⟨fun _ => rfl, fun f h => by simp [probe] at h,
      fun r h => by simp [probe] at h⟩
  | cons a rest ih =>
    obtain ⟨lvn, lvf, lvr⟩ := branchCopy_probeLevel heap reg hv q a
    obtain ⟨ihn, ihf, ihr⟩ := ih
    cases hl : probeLevel reg q a with
    | none =>
      have hl' := lvn hl
      simp only [probe, hl, hl']
      exact ⟨ihn, ihf, ihr⟩
    | some s =>
      cases s with
      | fn f0 =>
        have hl' := lvf f0 hl
        simp only [probe, hl, hl']
        exact ⟨fun h => by simp at h, fun f h => by cases h; rfl,
          fun r h => by simp at h⟩
      | ref r0 =>
        obtain ⟨r', hl', hread⟩ := lvr r0 hl
        simp only [probe, hl, hl']
        refine ⟨fun h => by simp at h, fun f h => by simp at h,
          fun r h => ?_⟩
        cases h
        exact ⟨r', rfl, hread⟩

end BranchCopyHelpers

section BranchHelpers

theorem dispatch_for_heap_of_not_uselist (d : Dispatcher) (heap : Heap)
    (t : TargetId) (q : Qualifier) (f : Handler) (hm : d.uselist = false) :
    (d.dispatch_for heap t q f).2.1 = heap := by
  simp only [Dispatcher.dispatch_for, hm, Bool.false_eq_true, if_false]
  by_cases h : (lookupReg d.registry (t, q)).isSome = true
  · rw [if_pos h]
  · rw [if_neg h]

theorem branch_eq_of_uselist (d : Dispatcher) (heap : Heap) (hm : d.uselist = true) :
    d.branch heap
      = (⟨false, (branchCopy heap d.registry).2⟩, (branchCopy heap d.registry).1) := by
  simp [Dispatcher.branch, hm]

theorem branch_eq_of_not_uselist (d : Dispatcher) (heap : Heap)
    (hm : d.uselist = false) :
    d.branch heap = (⟨false, d.registry⟩, heap) := by
  simp [Dispatcher.branch, hm]

end BranchHelpers

end Langhelpers

namespace Langhelpers

/-! ## The claims -/

/-- **C3.** For a `multi = false` dispatcher, registering at a key that
already holds a handler fails with the duplicate-registration error and
leaves the state unchanged rather than overwriting; registering at the
same target under an unoccupied qualifier succeeds and returns the
handler. -/
theorem register_duplicate_vs_distinct (d : Dispatcher) (heap : Heap)
    (t : TargetId) (q q' : Qualifier) (f g : Handler)
    (hm : d.uselist = false)
    (hdup : (lookupReg d.registry (t, q)).isSome = true) :
    d.dispatch_for heap t q f
      = (d, heap, Except.error DispatchError.duplicateRegistration)
  ∧ ((lookupReg d.registry (t, q')).isSome = false →
      d.dispatch_for heap t q' g
        = ({ d with registry := d.registry ++ [((t, q'), Slot.fn g)] },
           heap, Except.ok g)) := by
  constructor
  · simp [Dispatcher.dispatch_for, hm, hdup]
  · intro hq'
    simp [Dispatcher.dispatch_for, hm, hq']

/-- Witness for `register_duplicate_vs_distinct`. -/
theorem register_duplicate_vs_distinct_witness :
    (Dispatcher.mk false [((TargetId.str "a", "default"), Slot.fn 1)]).uselist = false
  ∧ (lookupReg [((TargetId.str "a", "default"), Slot.fn 1)]
      (TargetId.str "a", "default")).isSome = true
  ∧ (Dispatcher.mk false [((TargetId.str "a", "default"), Slot.fn 1)]).dispatch_for
      (Heap.mk []) (TargetId.str "a") "default" 2
      = (Dispatcher.mk false [((TargetId.str "a", "default"), Slot.fn 1)],
         Heap.mk [], Except.error DispatchError.duplicateRegistration)
  ∧ (Dispatcher.mk false [((TargetId.str "a", "default"), Slot.fn 1)]).dispatch_for
      (Heap.mk []) (TargetId.str "a") "other" 2
      = (Dispatcher.mk false [((TargetId.str "a", "default"), Slot.fn 1),
           ((TargetId.str "a", "other"), Slot.fn 2)],
         Heap.mk [], Except.ok 2) :=
  ⟨rfl, rfl,
   (register_duplicate_vs_distinct
      (Dispatcher.mk false [((TargetId.str "a", "default"), Slot.fn 1)])
      (Heap.mk []) (TargetId.str "a") "default" "other" 2 2 rfl rfl).1,
   (register_duplicate_vs_distinct
      (Dispatcher.mk false [((TargetId.str "a", "default"), Slot.fn 1)])
      (Heap.mk []) (TargetId.str "a") "default" "other" 2 2 rfl rfl).2 rfl⟩

/-- **C5.** The probe sequence: a string probes only itself; a type
probes its linearized ancestor chain (most-derived first, ending at the
universal base type when well-formed); any other object probes the chain
of its type the same way. -/
theorem probe_sequence_spec (s : String) (t u : PyType) (hwf : u.mroWF) :
    targetsOf (Obj.str s) = [TargetId.str s]
  ∧ targetsOf (Obj.typ t) = t.mro.map TargetId.typ
  ∧ targetsOf (Obj.inst t) = t.mro.map TargetId.typ
  ∧ (targetsOf (Obj.typ u)).head? = some (TargetId.typ u.id)
  ∧ (targetsOf (Obj.typ u)).getLast? = some (TargetId.typ objectId) := by
  refine ⟨rfl, rfl, rfl, ?_, ?_⟩
  · show (u.mro.map TargetId.typ).head? = some (TargetId.typ u.id)
    rw [List.head?_map, hwf.1]
    rfl
  · show (u.mro.map TargetId.typ).getLast? = some (TargetId.typ objectId)
    rw [List.getLast?_map, hwf.2]
    rfl

/-- Witness for `probe_sequence_spec`. -/
theorem probe_sequence_spec_witness :
    (PyType.mk 3 [3, 2, 1, 0]).mroWF
  ∧ targetsOf (Obj.str "a") = [TargetId.str "a"]
  ∧ targetsOf (Obj.inst (PyType.mk 3 [3, 2, 1, 0]))
      = [TargetId.typ 3, TargetId.typ 2, TargetId.typ 1, TargetId.typ 0]
  ∧ (targetsOf (Obj.typ (PyType.mk 3 [3, 2, 1, 0]))).head? = some (TargetId.typ 3)
  ∧ (targetsOf (Obj.typ (PyType.mk 3 [3, 2, 1, 0]))).getLast?
      = some (TargetId.typ objectId) :=
  ⟨by decide,
   (probe_sequence_spec "a" (PyType.mk 3 [3, 2, 1, 0]) (PyType.mk 3 [3, 2, 1, 0])
      (by decide)).1,
   (probe_sequence_spec "a" (PyType.mk 3 [3, 2, 1, 0]) (PyType.mk 3 [3, 2, 1, 0])
      (by decide)).2.2.1,
   (probe_sequence_spec "a" (PyType.mk 3 [3, 2, 1, 0]) (PyType.mk 3 [3, 2, 1, 0])
      (by decide)).2.2.2.1,
   (probe_sequence_spec "a" (PyType.mk 3 [3, 2, 1, 0]) (PyType.mk 3 [3, 2, 1, 0])
      (by decide)).2.2.2.2⟩

/-- **C6.** When no target of the probe sequence is registered under the
supplied qualifier or under `"default"`, `dispatch` fails with the
no-dispatch-target error naming the object. -/
theorem dispatch_no_target (d : Dispatcher) (heap : Heap) (obj : Obj)
    (q : Qualifier)
    (h : ∀ t ∈ targetsOf obj,
        lookupReg d.registry (t, q) = none
      ∧ lookupReg d.registry (t, "default") = none) :
    d.dispatch heap obj q
      = Except.error (DispatchError.noDispatchTarget obj) := by
  unfold Dispatcher.dispatch
  rw [probe_none_of_all_none _ _ _
    (fun t ht => probeLevel_of_none _ _ _ (h t ht).1 (h t ht).2)]

/-- Witness for `dispatch_no_target`. -/
theorem dispatch_no_target_witness :
    (∀ t ∈ targetsOf (Obj.str "foo"),
        lookupReg ([] : List (Key × Slot)) (t, "default") = none
      ∧ lookupReg ([] : List (Key × Slot)) (t, "default") = none)
  ∧ (Dispatcher.mk false []).dispatch (Heap.mk []) (Obj.str "foo") "default"
      = Except.error (DispatchError.noDispatchTarget (Obj.str "foo")) :=
  ⟨by decide,
   dispatch_no_target (Dispatcher.mk false []) (Heap.mk []) (Obj.str "foo")
     "default" (by decide)⟩

/-- **C7.** The aggregate returned by a `multi = true` dispatch invokes
the resolved handlers in order and propagates the first exception:
handlers after the raising one are not invoked, and no aggregation of
partial failures occurs. -/
theorem multi_aggregate_fail_fast (d : Dispatcher) (heap : Heap) (obj : Obj)
    (q : Qualifier) (fns pre post : List Handler) (bad : Handler)
    (raises : Handler → Bool)
    (_hm : d.uselist = true)
    (_hd : d.dispatch heap obj q = Except.ok (PyRes.go fns))
    (hsplit : fns = pre ++ bad :: post)
    (hpre : ∀ g ∈ pre, raises g = false)
    (hbad : raises bad = true) :
    runGo raises fns = (pre ++ [bad], some bad) := by
  subst hsplit
  exact runGo_first_raise raises pre bad post hpre hbad

/-- The raising behaviour used in the fail-fast witness: handler 2
raises, all others return. -/
def exRaises : Handler → Bool := fun n => n == 2

/-- Witness for `multi_aggregate_fail_fast`. -/
theorem multi_aggregate_fail_fast_witness :
    (Dispatcher.mk true [((TargetId.str "a", "default"), Slot.ref 0)]).dispatch
        (Heap.mk [[1, 2, 3]]) (Obj.str "a") "default"
      = Except.ok (PyRes.go [1, 2, 3])
  ∧ exRaises 2 = true
  ∧ runGo exRaises [1, 2, 3] = ([1, 2], some 2) :=
  ⟨rfl, rfl,
   multi_aggregate_fail_fast
     (Dispatcher.mk true [((TargetId.str "a", "default"), Slot.ref 0)])
     (Heap.mk [[1, 2, 3]]) (Obj.str "a") "default" [1, 2, 3] [1] [3] 2 exRaises
     rfl rfl rfl (by decide) rfl⟩

/-- **C8.** Registration and dispatch are all-or-nothing: a failed
registration leaves registry and heap unchanged, and dispatch (whose
body only reads the state) yields the state back unchanged whether it
succeeds or fails. -/
theorem register_dispatch_atomic (d : Dispatcher) (heap : Heap) (t : TargetId)
    (q q2 : Qualifier) (f : Handler) (obj : Obj) :
    (∀ e, (d.dispatch_for heap t q f).2.2 = Except.error e →
        (d.dispatch_for heap t q f).1 = d
      ∧ (d.dispatch_for heap t q f).2.1 = heap)
  ∧ (d.dispatchSt heap obj q2).1 = d
  ∧ (d.dispatchSt heap obj q2).2.1 = heap := by
  refine ⟨?_, rfl, rfl⟩
  intro e he
  by_cases hm : d.uselist = true
  · simp only [Dispatcher.dispatch_for, hm, if_true] at he ⊢
    cases hl : lookupReg d.registry (t, q) with
    | none => rw [hl] at he; simp at he
    | some s =>
      cases s with
      | fn f0 => exact ⟨rfl, rfl⟩
      | ref r => rw [hl] at he; simp at he
  · have hm' : d.uselist = false := by simpa using hm
    simp only [Dispatcher.dispatch_for, hm', Bool.false_eq_true, if_false] at he ⊢
    by_cases hl : (lookupReg d.registry (t, q)).isSome = true
    · rw [if_pos hl] at he ⊢; exact ⟨rfl, rfl⟩
    · rw [if_neg hl] at he; simp at he

/-- Witness for `register_dispatch_atomic`. -/
theorem register_dispatch_atomic_witness :
    ((Dispatcher.mk false [((TargetId.str "a", "default"), Slot.fn 1)]).dispatch_for
        (Heap.mk []) (TargetId.str "a") "default" 2).2.2
      = Except.error DispatchError.duplicateRegistration
  ∧ (((Dispatcher.mk false [((TargetId.str "a", "default"), Slot.fn 1)]).dispatch_for
        (Heap.mk []) (TargetId.str "a") "default" 2).1
      = Dispatcher.mk false [((TargetId.str "a", "default"), Slot.fn 1)]
    ∧ ((Dispatcher.mk false [((TargetId.str "a", "default"), Slot.fn 1)]).dispatch_for
        (Heap.mk []) (TargetId.str "a") "default" 2).2.1 = Heap.mk [])
  ∧ ((Dispatcher.mk false [((TargetId.str "a", "default"), Slot.fn 1)]).dispatchSt
        (Heap.mk []) (Obj.str "a") "default").1
      = Dispatcher.mk false [((TargetId.str "a", "default"), Slot.fn 1)] :=
  ⟨rfl,
   (register_dispatch_atomic
      (Dispatcher.mk false [((TargetId.str "a", "default"), Slot.fn 1)])
      (Heap.mk []) (TargetId.str "a") "default" "default" 2 (Obj.str "a")).1
      DispatchError.duplicateRegistration rfl,
   (register_dispatch_atomic
      (Dispatcher.mk false [((TargetId.str "a", "default"), Slot.fn 1)])
      (Heap.mk []) (TargetId.str "a") "default" "default" 2 (Obj.str "a")).2.1⟩

/-- **C9.** A successful registration returns the original handler
unchanged, in both modes, so decorator use leaves the function identical
and repeated decoration composes. -/
theorem register_returns_handler (d : Dispatcher) (heap : Heap) (t : TargetId)
    (q : Qualifier) (f g : Handler)
    (h : (d.dispatch_for heap t q f).2.2 = Except.ok g) :
    g = f := by
  by_cases hm : d.uselist = true
  · simp only [Dispatcher.dispatch_for, hm, if_true] at h
    cases hl : lookupReg d.registry (t, q) with
    | none => rw [hl] at h; simp at h; exact h.symm
    | some s =>
      cases s with
      | fn f0 => rw [hl] at h; simp at h
      | ref r => rw [hl] at h; simp at h; exact h.symm
  · have hm' : d.uselist = false := by simpa using hm
    simp only [Dispatcher.dispatch_for, hm', Bool.false_eq_true, if_false] at h
    by_cases hl : (lookupReg d.registry (t, q)).isSome = true
    · rw [if_pos hl] at h; simp at h
    · rw [if_neg hl] at h; simp at h; exact h.symm

/-- Witness for `register_returns_handler`. -/
theorem register_returns_handler_witness :
    ((Dispatcher.mk false []).dispatch_for (Heap.mk []) (TargetId.str "a")
        "default" 5).2.2 = Except.ok 5
  ∧ (5 : Handler) = 5 :=
  ⟨rfl, register_returns_handler (Dispatcher.mk false []) (Heap.mk [])
    (TargetId.str "a") "default" 5 5 rfl⟩

/-- **C10.** `to_tuple` returns its `default` argument on `None`, the
one-element tuple on a string, the tuple of elements in iteration order
on any other iterable, the one-element tuple otherwise — and, being a
total function, it never raises. -/
theorem to_tuple_spec (x default : PyVal) :
    to_tuple PyVal.none default = default
  ∧ (∀ s, to_tuple (PyVal.str s) default = PyVal.tup [PyVal.str s])
  ∧ (x.isIterable = true → x.isString = false →
      to_tuple x default = PyVal.tup x.elements)
  ∧ (x.isIterable = false → (x matches PyVal.none) = false →
      to_tuple x default = PyVal.tup [x]) := by
  refine ⟨rfl, fun s => rfl, ?_, ?_⟩
  · intro h1 h2
    cases x <;> simp_all [to_tuple, PyVal.isIterable, PyVal.isString]
  · intro h1 h2
    cases x <;> simp_all [to_tuple, PyVal.isIterable, PyVal.isString]

/-- **C1.** `dispatch` walks the probe sequence most-specific first: at
the first ancestor level that matches anything, it returns the handler
registered under the exact non-default qualifier if one exists,
otherwise the handler registered under `"default"` at that same level;
consequently a default-qualifier registration at a more specific
ancestor is returned in preference to an exact-qualifier registration
at a less specific ancestor. -/
theorem dispatch_probe_resolution (d : Dispatcher) (heap : Heap) (obj : Obj)
    (q : Qualifier) (pre : List TargetId) (a : TargetId) (post : List TargetId)
    (hseq : targetsOf obj = pre ++ a :: post)
    (hpre : ∀ t ∈ pre, probeLevel d.registry q t = none) :
    (∀ s, q ≠ "default" → lookupReg d.registry (a, q) = some s →
        d.dispatch heap obj q = Except.ok (d.fnOrList heap s))
  ∧ (∀ s, (q = "default" ∨ lookupReg d.registry (a, q) = none) →
        lookupReg d.registry (a, "default") = some s →
        d.dispatch heap obj q = Except.ok (d.fnOrList heap s))
  ∧ (∀ s s' b, lookupReg d.registry (a, q) = none →
        lookupReg d.registry (a, "default") = some s →
        b ∈ post → lookupReg d.registry (b, q) = some s' →
        d.dispatch heap obj q = Except.ok (d.fnOrList heap s)) := by
  have hstep : ∀ s, probeLevel d.registry q a = some s →
      d.dispatch heap obj q = Except.ok (d.fnOrList heap s) := by
    intro s hs
    unfold Dispatcher.dispatch
    rw [hseq, probe_append_of_none _ _ _ _ hpre]
    simp [probe, hs]
  have h2 : ∀ s, (q = "default" ∨ lookupReg d.registry (a, q) = none) →
      lookupReg d.registry (a, "default") = some s →
      d.dispatch heap obj q = Except.ok (d.fnOrList heap s) := by
    intro s hcase hl
    apply hstep
    have hb : (q != "default" && (lookupReg d.registry (a, q)).isSome) = false := by
      rcases hcase with hq | hl0
      · simp [hq]
      · rw [hl0]; simp
    unfold probeLevel
    rw [if_neg (by rw [hb]; exact Bool.false_ne_true)]
    rw [if_pos (by rw [hl]; rfl)]
    exact hl
  refine ⟨?_, h2, ?_⟩
  · intro s hq hl
    apply hstep
    have hb : (q != "default" && (lookupReg d.registry (a, q)).isSome) = true := by
      rw [hl]
      simp [bne_iff_ne]
      exact hq
    unfold probeLevel
    rw [if_pos hb]
    exact hl
  · intro s s' b hnone hl _ _
    exact h2 s (Or.inr hnone) hl

/-- Witness for `dispatch_probe_resolution`: qualifier `"special"`
registered only on the grandparent, a default handler on the parent;
dispatching an instance of the child with qualifier `"special"` returns
the parent's default handler. -/
theorem dispatch_probe_resolution_witness :
    targetsOf (Obj.inst (PyType.mk 3 [3, 2, 1, 0]))
      = [TargetId.typ 3] ++ TargetId.typ 2 :: [TargetId.typ 1, TargetId.typ 0]
  ∧ (∀ t ∈ [TargetId.typ 3],
      probeLevel [((TargetId.typ 1, "special"), Slot.fn 100),
        ((TargetId.typ 2, "default"), Slot.fn 200)] "special" t = none)
  ∧ lookupReg [((TargetId.typ 1, "special"), Slot.fn 100),
        ((TargetId.typ 2, "default"), Slot.fn 200)] (TargetId.typ 2, "special")
      = none
  ∧ lookupReg [((TargetId.typ 1, "special"), Slot.fn 100),
        ((TargetId.typ 2, "default"), Slot.fn 200)] (TargetId.typ 2, "default")
      = some (Slot.fn 200)
  ∧ lookupReg [((TargetId.typ 1, "special"), Slot.fn 100),
        ((TargetId.typ 2, "default"), Slot.fn 200)] (TargetId.typ 1, "special")
      = some (Slot.fn 100)
  ∧ (Dispatcher.mk false [((TargetId.typ 1, "special"), Slot.fn 100),
        ((TargetId.typ 2, "default"), Slot.fn 200)]).dispatch (Heap.mk [])
        (Obj.inst (PyType.mk 3 [3, 2, 1, 0])) "special"
      = Except.ok (PyRes.fn 200) :=
  ⟨rfl, by decide, rfl, rfl, rfl,
   (dispatch_probe_resolution
      (Dispatcher.mk false [((TargetId.typ 1, "special"), Slot.fn 100),
        ((TargetId.typ 2, "default"), Slot.fn 200)])
      (Heap.mk []) (Obj.inst (PyType.mk 3 [3, 2, 1, 0])) "special"
      [TargetId.typ 3] (TargetId.typ 2) [TargetId.typ 1, TargetId.typ 0]
      rfl (by decide)).2.2
     (Slot.fn 200) (Slot.fn 100) (TargetId.typ 1) rfl rfl (by decide) rfl⟩

/-- **C2, counterexample.**  `branch` does not preserve the original's
multi mode: it constructs the copy with `Dispatcher()`, whose `uselist`
defaults to `False`.  On a `multi = true` dispatcher holding one
handler, the branch has `uselist = false`, and dispatching on the fresh
branch returns the raw handler list where the original returns the
aggregate closure — so the branch does not resolve exactly what the
original resolves either. -/
theorem branch_multi_counterexample :
    (Dispatcher.mk true [((TargetId.str "a", "default"), Slot.ref 0)]).uselist
      = true
  ∧ ((Dispatcher.mk true [((TargetId.str "a", "default"), Slot.ref 0)]).branch
        (Heap.mk [[7]])).1.uselist = false
  ∧ (Dispatcher.mk true [((TargetId.str "a", "default"), Slot.ref 0)]).dispatch
        (Heap.mk [[7]]) (Obj.str "a") "default" = Except.ok (PyRes.go [7])
  ∧ ((Dispatcher.mk true [((TargetId.str "a", "default"), Slot.ref 0)]).branch
        (Heap.mk [[7]])).1.dispatch
      ((Dispatcher.mk true [((TargetId.str "a", "default"), Slot.ref 0)]).branch
        (Heap.mk [[7]])).2 (Obj.str "a") "default"
      = Except.ok (PyRes.list [7])
  ∧ (Except.ok (PyRes.go [7]) : Except DispatchError PyRes)
      ≠ Except.ok (PyRes.list [7]) := by
  refine ⟨rfl, rfl, rfl, rfl, ?_⟩
  intro h
  simp at h

/-- **C2, amended.**  `branch()` returns an independent copy whose multi
mode is always `false` (it does not preserve a `multi = true` mode).
All previously registered handlers are preserved: per-slot sequences are
deep-copied into fresh lists when the original's multi mode is true,
entries are shared when it is false.  When the original's multi mode is
false, dispatching on the branch before further registration resolves
exactly what the original resolves; when it is true, the branch resolves
the same handler sequence but returns it as a raw list rather than as
the aggregate.  Registrations made afterwards on either dispatcher are
invisible to the other. -/
theorem branch_amended (d : Dispatcher) (heap : Heap)
    (hv : regValid heap d.registry = true) :
    ((d.branch heap).1).uselist = false
  ∧ (d.uselist = false →
      (d.branch heap).1.registry = d.registry
    ∧ (d.branch heap).2 = heap
    ∧ ∀ obj q, (d.branch heap).1.dispatch (d.branch heap).2 obj q
        = d.dispatch heap obj q)
  ∧ (d.uselist = true →
      ∀ k, Option.map (slotFns (d.branch heap).2)
          (lookupReg (d.branch heap).1.registry k)
        = Option.map (slotFns heap) (lookupReg d.registry k))
  ∧ (∀ t q f obj q2,
      (d.branch heap).1.dispatch
          (d.dispatch_for (d.branch heap).2 t q f).2.1 obj q2
        = (d.branch heap).1.dispatch (d.branch heap).2 obj q2)
  ∧ (∀ t q f obj q2,
      d.dispatch
          ((d.branch heap).1.dispatch_for (d.branch heap).2 t q f).2.1 obj q2
        = d.dispatch heap obj q2)
  ∧ (d.uselist = true →
      ∀ obj q r, probe d.registry q (targetsOf obj) = some (Slot.ref r) →
        d.dispatch heap obj q = Except.ok (PyRes.go (heap.read r))
      ∧ (d.branch heap).1.dispatch (d.branch heap).2 obj q
          = Except.ok (PyRes.list (heap.read r))) := by
  refine ⟨?_, ?_, ?_, ?_, ?_, ?_⟩
  · by_cases hm : d.uselist = true
    · rw [branch_eq_of_uselist d heap hm]
    · rw [branch_eq_of_not_uselist d heap (by simpa using hm)]
  · intro hm
    rw [branch_eq_of_not_uselist d heap hm]
    refine ⟨rfl, rfl, fun obj q => ?_⟩
    rw [show Dispatcher.mk false d.registry = d from by rw [← hm]]
  · intro hm
    rw [branch_eq_of_uselist d heap hm]
    intro k
    obtain ⟨hn, hf, hr⟩ := branchCopy_lookup heap d.registry hv k
    cases hl : lookupReg d.registry k with
    | none => rw [hn hl]; rfl
    | some sl =>
      cases sl with
      | fn f0 => rw [hf f0 hl]; rfl
      | ref r =>
        obtain ⟨r', hl', hread⟩ := hr r hl
        rw [hl']
        simp [slotFns, hread]
  · intro t q f obj q2
    by_cases hm : d.uselist = true
    · rw [branch_eq_of_uselist d heap hm]
      apply dispatch_heap_congr
      intro k r'' hk
      obtain ⟨hge, hlt⟩ := branchCopy_refs heap d.registry k r'' hk
      cases hl : lookupReg d.registry (t, q) with
      | none =>
        have hstep : (d.dispatch_for (branchCopy heap d.registry).1 t q f).2.1
            = ((branchCopy heap d.registry).1.alloc []).1.write
                (branchCopy heap d.registry).1.data.length
                (((branchCopy heap d.registry).1.alloc []).1.read
                  (branchCopy heap d.registry).1.data.length ++ [f]) := by
          simp [Dispatcher.dispatch_for, hm, hl, Heap.alloc]
        rw [hstep]
        rw [Heap.read_write_ne _ _ _ _ (Nat.ne_of_gt hlt)]
        exact Heap.read_alloc_lt _ [] r'' hlt
      | some sl =>
        cases sl with
        | fn f0 =>
          have hstep : (d.dispatch_for (branchCopy heap d.registry).1 t q f).2.1
              = (branchCopy heap d.registry).1 := by
            simp [Dispatcher.dispatch_for, hm, hl]
          rw [hstep]
        | ref r =>
          have hstep : (d.dispatch_for (branchCopy heap d.registry).1 t q f).2.1
              = (branchCopy heap d.registry).1.write r
                  ((branchCopy heap d.registry).1.read r ++ [f]) := by
            simp [Dispatcher.dispatch_for, hm, hl]
          rw [hstep]
          have hrlt : r < heap.data.length := regValid_spec heap d.registry hv _ r hl
          exact Heap.read_write_ne _ r r'' _
            (Nat.ne_of_lt (Nat.lt_of_lt_of_le hrlt hge))
    · have hm' : d.uselist = false := by simpa using hm
      rw [branch_eq_of_not_uselist d heap hm']
      rw [dispatch_for_heap_of_not_uselist d heap t q f hm']
  · intro t q f obj q2
    by_cases hm : d.uselist = true
    · rw [branch_eq_of_uselist d heap hm]
      rw [dispatch_for_heap_of_not_uselist _ _ t q f rfl]
      apply dispatch_heap_congr
      intro k r hk
      have hrlt : r < heap.data.length := regValid_spec heap d.registry hv _ r hk
      exact branchCopy_read_lt heap d.registry r hrlt
    · have hm' : d.uselist = false := by simpa using hm
      rw [branch_eq_of_not_uselist d heap hm']
      rw [dispatch_for_heap_of_not_uselist _ _ t q f rfl]
  · intro hm obj q r hp
    constructor
    · unfold Dispatcher.dispatch
      rw [hp]
      simp [Dispatcher.fnOrList, hm]
    · rw [branch_eq_of_uselist d heap hm]
      obtain ⟨r', hp', hread⟩ :=
        (branchCopy_probe heap d.registry hv q (targetsOf obj)).2.2 r hp
      unfold Dispatcher.dispatch
      rw [hp']
      simp [Dispatcher.fnOrList, hread]

/-- Witness for `branch_amended`: a concrete `multi = true` dispatcher
with one registered handler; the branch keeps the handler sequence, a
later registration on the original is invisible to the branch, and the
branch returns the raw list where the original returns the aggregate. -/
theorem branch_amended_witness :
    regValid (Heap.mk [[7]])
        (Dispatcher.mk true [((TargetId.str "a", "default"), Slot.ref 0)]).registry
      = true
  ∧ ((Dispatcher.mk true [((TargetId.str "a", "default"), Slot.ref 0)]).branch
        (Heap.mk [[7]])).1.uselist = false
  ∧ ((Dispatcher.mk true [((TargetId.str "a", "default"), Slot.ref 0)]).branch
        (Heap.mk [[7]])).1.dispatch
      ((Dispatcher.mk true [((TargetId.str "a", "default"), Slot.ref 0)]).dispatch_for
        ((Dispatcher.mk true [((TargetId.str "a", "default"), Slot.ref 0)]).branch
          (Heap.mk [[7]])).2 (TargetId.str "a") "default" 9).2.1
      (Obj.str "a") "default"
      = ((Dispatcher.mk true [((TargetId.str "a", "default"), Slot.ref 0)]).branch
          (Heap.mk [[7]])).1.dispatch
        ((Dispatcher.mk true [((TargetId.str "a", "default"), Slot.ref 0)]).branch
          (Heap.mk [[7]])).2 (Obj.str "a") "default"
  ∧ (Dispatcher.mk true [((TargetId.str "a", "default"), Slot.ref 0)]).dispatch
        (Heap.mk [[7]]) (Obj.str "a") "default" = Except.ok (PyRes.go [7])
  ∧ ((Dispatcher.mk true [((TargetId.str "a", "default"), Slot.ref 0)]).branch
        (Heap.mk [[7]])).1.dispatch
      ((Dispatcher.mk true [((TargetId.str "a", "default"), Slot.ref 0)]).branch
        (Heap.mk [[7]])).2 (Obj.str "a") "default"
      = Except.ok (PyRes.list [7]) :=
  ⟨rfl,
   (branch_amended
      (Dispatcher.mk true [((TargetId.str "a", "default"), Slot.ref 0)])
      (Heap.mk [[7]]) rfl).1,
   (branch_amended
      (Dispatcher.mk true [((TargetId.str "a", "default"), Slot.ref 0)])
      (Heap.mk [[7]]) rfl).2.2.2.1 (TargetId.str "a") "default" 9
      (Obj.str "a") "default",
   ((branch_amended
      (Dispatcher.mk true [((TargetId.str "a", "default"), Slot.ref 0)])
      (Heap.mk [[7]]) rfl).2.2.2.2.2 rfl (Obj.str "a") "default" 0 rfl).1,
   ((branch_amended
      (Dispatcher.mk true [((TargetId.str "a", "default"), Slot.ref 0)])
      (Heap.mk [[7]]) rfl).2.2.2.2.2 rfl (Obj.str "a") "default" 0 rfl).2⟩

/-- **C4.** With `multi = true`, registering a sequence of handlers
under one fresh key appends them in order to that slot; dispatching on
that key returns the aggregate over exactly that sequence, and invoking
the aggregate (when no handler raises) calls each handler exactly once,
in registration order. -/
theorem multi_register_invocation_order (d : Dispatcher) (heap : Heap)
    (s : String) (q : Qualifier) (f : Handler) (fns : List Handler)
    (hm : d.uselist = true)
    (hfresh : lookupReg d.registry (TargetId.str s, q) = none) :
    registerAll d heap (TargetId.str s) q (f :: fns)
      = ({ d with registry := d.registry
             ++ [((TargetId.str s, q), Slot.ref heap.data.length)] },
         ⟨heap.data ++ [f :: fns]⟩, Except.ok ())
  ∧ ({ d with registry := d.registry
             ++ [((TargetId.str s, q), Slot.ref heap.data.length)] } :
        Dispatcher).dispatch ⟨heap.data ++ [f :: fns]⟩ (Obj.str s) q
      = Except.ok (PyRes.go (f :: fns))
  ∧ ∀ raises, (∀ g ∈ f :: fns, raises g = false) →
      runGo raises (f :: fns) = (f :: fns, none) := by
  refine ⟨registerAll_fresh d heap _ q f fns hm hfresh, ?_,
    fun raises h => runGo_no_raise raises _ h⟩
  have hl1 : lookupReg (d.registry
        ++ [((TargetId.str s, q), Slot.ref heap.data.length)])
      (TargetId.str s, q) = some (Slot.ref heap.data.length) :=
    lookupReg_append_single_self d.registry _ _ hfresh
  have hpl : probeLevel (d.registry
        ++ [((TargetId.str s, q), Slot.ref heap.data.length)]) q
      (TargetId.str s) = some (Slot.ref heap.data.length) := by
    unfold probeLevel
    by_cases hq : q = "default"
    · subst hq
      rw [if_neg (by simp), if_pos (by rw [hl1]; rfl)]
      exact hl1
    · rw [if_pos (by rw [hl1]; simp [bne_iff_ne]; exact hq)]
      exact hl1
  unfold Dispatcher.dispatch
  have htg : targetsOf (Obj.str s) = [TargetId.str s] := rfl
  rw [htg]
  simp only [probe, hpl]
  unfold Dispatcher.fnOrList
  rw [if_pos (by simpa using hm)]
  show Except.ok (PyRes.go ((Heap.mk (heap.data ++ [f :: fns])).read heap.data.length))
      = Except.ok (PyRes.go (f :: fns))
  rw [show (Heap.mk (heap.data ++ [f :: fns])).read heap.data.length = f :: fns
    from list_getD_append_len heap.data (f :: fns) [] []]

/-- Witness for `multi_register_invocation_order`. -/
theorem multi_register_invocation_order_witness :
    (Dispatcher.mk true []).uselist = true
  ∧ lookupReg ([] : List (Key × Slot)) (TargetId.str "a", "default") = none
  ∧ registerAll (Dispatcher.mk true []) (Heap.mk []) (TargetId.str "a")
        "default" [1, 2, 3]
      = (Dispatcher.mk true [((TargetId.str "a", "default"), Slot.ref 0)],
         Heap.mk [[1, 2, 3]], Except.ok ())
  ∧ (Dispatcher.mk true [((TargetId.str "a", "default"), Slot.ref 0)]).dispatch
        (Heap.mk [[1, 2, 3]]) (Obj.str "a") "default"
      = Except.ok (PyRes.go [1, 2, 3])
  ∧ runGo (fun _ => false) [1, 2, 3] = ([1, 2, 3], none) :=
  ⟨rfl, rfl,
   (multi_register_invocation_order (Dispatcher.mk true []) (Heap.mk [])
      "a" "default" 1 [2, 3] rfl rfl).1,
   (multi_register_invocation_order (Dispatcher.mk true []) (Heap.mk [])
      "a" "default" 1 [2, 3] rfl rfl).2.1,
   (multi_register_invocation_order (Dispatcher.mk true []) (Heap.mk [])
      "a" "default" 1 [2, 3] rfl rfl).2.2 (fun _ => false) (by decide)⟩

/-- Witness for `to_tuple_spec`. -/
theorem to_tuple_spec_witness :
    (PyVal.listv [PyVal.other 1, PyVal.other 2]).isIterable = true
  ∧ (PyVal.listv [PyVal.other 1, PyVal.other 2]).isString = false
  ∧ to_tuple (PyVal.listv [PyVal.other 1, PyVal.other 2]) PyVal.none
      = PyVal.tup [PyVal.other 1, PyVal.other 2]
  ∧ (PyVal.other 5).isIterable = false
  ∧ to_tuple (PyVal.other 5) PyVal.none = PyVal.tup [PyVal.other 5] :=
  ⟨rfl, rfl,
   (to_tuple_spec (PyVal.listv [PyVal.other 1, PyVal.other 2]) PyVal.none).2.2.1
     rfl rfl,
   rfl,
   (to_tuple_spec (PyVal.other 5) PyVal.none).2.2.2 rfl rfl⟩

end Langhelpers
